import Mathlib

/-!
Shallow embedding of the OCR-harness backend processing pipeline and model
registry (src/backend/app/services/model_service.py,
src/backend/app/services/vllm_service.py, src/backend/app/routes/process.py,
src/backend/app/routes/models.py), with theorems checking the
natural-language specification's claims against the code.

Conventions of the embedding:
- Python dicts with string keys become insertion-ordered association lists
  (`Params`); `dict.get`, `in`, item assignment and `dict.update` are
  translated as `dget`, `dmem`, `dset`, `dupdate`.
- Python floats in the sampling parameters and in PIL arithmetic are
  modelled exactly by rationals (the values involved in the claims are
  small decimals, exactly representable).
- Raised exceptions become `Except` errors; the distinct `raise` sites of
  `vllm_service.process_image` become the constructors of `PIErr`.
- External I/O (the HTTP transport, pdfium page rendering, PNG encoding,
  JSON parsing) is passed in as explicit function arguments / data: the
  backend's reply is a `VLLMResponse` value, pdfium rendering is an
  abstract `render` function, PNG encoding an abstract `enc`.
-/

namespace OCR

/-- JSON-like values, as produced by `yaml.safe_load` / `json.loads` and as
sent in the request payload. -/
inductive JVal where
  | num (q : ℚ)
  | str (s : String)
  | arr (xs : List JVal)
  | obj (fs : List (String × JVal))

/-- A Python `dict` with string keys: an insertion-ordered association list
(keys assumed unique, as in any dict produced by `yaml.safe_load` or
`json.loads`). -/
abbrev Params := List (String × JVal)

/-- `d.get(k)` (also the lookup behind `k in d`). -/
def dget (d : Params) (k : String) : Option JVal :=
  (d.find? (fun p => p.1 == k)).map (fun p => p.2)

/-- `d.get(k, v)`. -/
def dgetD (d : Params) (k : String) (v : JVal) : JVal := (dget d k).getD v

/-- `k in d`. -/
def dmem (d : Params) (k : String) : Bool := (dget d k).isSome

/-- `d[k] = v`: overwrite in place when the key exists (keeping its
position), append otherwise — CPython dict semantics. -/
def dset (d : Params) (k : String) (v : JVal) : Params :=
  if dmem d k then d.map (fun p => if p.1 == k then (k, v) else p)
  else d ++ [(k, v)]

/-- `d.update(c)`: set every item of `c` in `d`, in `c`'s order. -/
def dupdate (d c : Params) : Params := c.foldl (fun acc p => dset acc p.1 p.2) d

/-- The Python exceptions raised by `model_service.py` (`ValueError`) and by
type-confused comparisons (`TypeError`). -/
inductive PyErr where
  | valueError (msg : String)
  | typeError (msg : String)
deriving DecidableEq

/-- One entry of `models.configurations` in `config/models.yaml` (spec §6):
`{display_name, model_path, server_port, parameters{...}}`.  The
`parameters` key may be absent (`.get('parameters', {})` in the source). -/
structure MConfig where
  display_name : String
  model_path : String
  server_port : Nat
  parameters? : Option Params

/-- The state of the `ModelService` singleton: the loaded
`config['models']['configurations']` map and the mutable
`self.current_model` identifier. -/
structure ModelService where
  configurations : List (String × MConfig)
  current_model : String

/-- `models[model_id]` lookup in the configurations dict. -/
def lookup (m : List (String × MConfig)) (k : String) : Option MConfig :=
  (m.find? (fun p => p.1 == k)).map (fun p => p.2)

/-- The dict returned by `get_current_model` / listed by `get_all_models`:
`{'id': model_id, **models[model_id]}` — the id plus the map entry.  The
`**` spread is a shallow copy: the `parameters` dict inside `cfg` is the
same object as the one stored in the registry. -/
structure CurrentModel where
  id : String
  cfg : MConfig

/-- `ModelService.get_current_model` (model_service.py:34-47). -/
def get_current_model (st : ModelService) : Except PyErr CurrentModel :=
  match lookup st.configurations st.current_model with
  | none => .error (.valueError
      ("Model " ++ st.current_model ++ " not found in configuration"))
  | some cfg => .ok ⟨st.current_model, cfg⟩

/-- `ModelService.get_all_models` (model_service.py:49-62). -/
def get_all_models (st : ModelService) : List CurrentModel :=
  st.configurations.map (fun p => ⟨p.1, p.2⟩)

/-- `ModelService.get_model_params` (model_service.py:64-80). -/
def get_model_params (st : ModelService) (model_id? : Option String) :
    Except PyErr Params :=
  let mid := model_id?.getD st.current_model
  match lookup st.configurations mid with
  | none => .error (.valueError ("Model " ++ mid ++ " not found"))
  | some cfg => .ok (cfg.parameters?.getD [])

/-- `ModelService.switch_model` (model_service.py:82-96): validate the id,
then assign `self.current_model` and return `self.get_current_model()`.
Returns the result together with the post-call state. -/
def switch_model (st : ModelService) (model_id : String) :
    Except PyErr CurrentModel × ModelService :=
  if (lookup st.configurations model_id).isSome then
    let st' := { st with current_model := model_id }
    (get_current_model st', st')
  else
    (.error (.valueError ("Model " ++ model_id ++ " not found in available models")), st)

/-- Outcome of a FastAPI route handler: the returned JSON or an
`HTTPException(status, detail)`. -/
inductive RouteOut (α : Type) where
  | ok (a : α)
  | httpError (status : Nat) (detail : String)

/-- The JSON body returned by `POST /api/models/switch/{model_id}`. -/
structure SwitchResponse where
  success : Bool
  model : CurrentModel
  message : String

/-- The `switch_model` route handler (routes/models.py:58-92): `ValueError`
is surfaced as HTTP 404, any other exception as HTTP 500. -/
def route_switch_model (st : ModelService) (model_id : String) :
    RouteOut SwitchResponse × ModelService :=
  match switch_model st model_id with
  | (.ok m, st') =>
      (.ok ⟨true, m, "Switched to model: " ++ m.cfg.display_name⟩, st')
  | (.error (.valueError msg), st') => (.httpError 404 msg, st')
  | (.error (.typeError msg), st') => (.httpError 500 msg, st')

/-- The parsed JSON body of the backend's reply, as far as the client
inspects it: the HTTP status, the raw body text, and the `choices` list —
`none` models a 200 body with no `choices` key, and each list entry models
`choices[i]['message']['content']`. -/
structure VLLMResponse where
  status : Nat
  body : String
  choices? : Option (List String)

/-- The failure paths of `VLLMService.process_image`, one constructor per
distinct raise site (all are `raise Exception(...)` in the source; the spec
names them BackendError / TimeoutError / MalformedResponseError):
- `py`: a `ValueError` propagating out of `model_service.get_current_model`;
- `backendStatus`: "vLLM returned status {status}: {body}" (non-200 reply);
- `timeout`: "vLLM request timed out" (transport-level; no claim exercises
  it, the reply is modelled as already received);
- `malformedResponse`: "No text content in vLLM response" (200 reply whose
  body lacks a non-empty `choices` list). -/
inductive PIErr where
  | py (e : PyErr)
  | backendStatus (status : Nat) (body : String)
  | timeout
  | malformedResponse
deriving DecidableEq

/-- The fixed OCR instruction (vllm_service.py:76). -/
def prompt : String :=
  "Extract all text from this image. Maintain the original layout and formatting as much as possible."

/-- The request payload dict literal (vllm_service.py:62-84), with the
merged parameter dict `mp` read back for the three sampling keys.  Exactly
the keys `model`, `messages`, `temperature`, `top_p`, `max_tokens` are
present — nothing else from `mp` is copied into the request. -/
def mkPayload (model_path image_base64 : String) (mp : Params) :
    List (String × JVal) :=
  [("model", .str model_path),
   ("messages", .arr [ .obj [
      ("role", .str "user"),
      ("content", .arr [
        .obj [("type", .str "image_url"),
              ("image_url", .obj [("url", .str ("data:image/png;base64," ++ image_base64))])],
        .obj [("type", .str "text"), ("text", .str prompt)]])]]),
   ("temperature", dgetD mp "temperature" (.num (0.2 : ℚ))),
   ("top_p", dgetD mp "top_p" (.num (0.9 : ℚ))),
   ("max_tokens", dgetD mp "max_tokens" (.num 6500))]

/-- Replace the stored `parameters` dict of model `mid` in the registry. -/
def set_params (st : ModelService) (mid : String) (p : Params) : ModelService :=
  let f : String × MConfig → String × MConfig := fun q =>
    if q.1 = mid then (q.1, { q.2 with parameters? := some p }) else q
  { st with configurations := st.configurations.map f }

/-- What a call to `VLLMService.process_image` produces: the returned text
or the raised exception, the outgoing request payload (`none` when
`get_current_model` raised before the payload was built), and the
post-call registry state. -/
structure PIOut where
  result : Except PIErr String
  payload? : Option (List (String × JVal))
  st : ModelService

/-- `VLLMService.process_image` (vllm_service.py:39-127).

Heap-semantics note on the post-call state: `get_current_model` returns
`{'id': ..., **models[current]}`, a *shallow* copy, so
`model_config.get('parameters', {})` is the very dict object stored in the
registry whenever the `parameters` key exists.  `model_params.update(config)`
(run when `config` is a non-empty dict, line 58-59) therefore mutates the
registry's stored parameter dict in place; when the `parameters` key is
absent, `.get` returns a fresh `{}` and the registry is untouched.  The
returned state makes that heap effect explicit. -/
def process_image (st : ModelService) (image_base64 : String)
    (config : Params) (resp : VLLMResponse) : PIOut :=
  match get_current_model st with
  | .error e => ⟨.error (.py e), none, st⟩
  | .ok mc =>
    let stored : Params := mc.cfg.parameters?.getD []
    let merged : Params := if config.isEmpty then stored else dupdate stored config
    let st' : ModelService :=
      if config.isEmpty || mc.cfg.parameters?.isNone then st
      else set_params st st.current_model merged
    let payload := mkPayload mc.cfg.model_path image_base64 merged
    if resp.status ≠ 200 then
      ⟨.error (.backendStatus resp.status resp.body), some payload, st'⟩
    else
      match resp.choices? with
      | some (c :: _) => ⟨.ok c, some payload, st'⟩
      | _ => ⟨.error .malformedResponse, some payload, st'⟩

/-- Specification-shaped description of one outgoing sampling parameter
(spec §4.3: "overrides win; unspecified keys keep defaults", with the
built-in fallback last).  Used to compare the code's payload against the
spec's words. -/
def specParamValue (config stored : Params) (k : String) (dflt : JVal) : JVal :=
  match dget config k with
  | some v => v
  | none =>
    match dget stored k with
    | some v => v
    | none => dflt

/-- An in-memory raster image, tracked at the level the claims are about:
its pixel dimensions. -/
structure Img where
  width : Nat
  height : Nat
deriving DecidableEq

/-- PIL's `round_aspect(number, key)` inside `Image.thumbnail`:
`max(min(math.floor(number), math.ceil(number), key=key), 1)` (Python `min`
keeps the first argument on a key tie). -/
def round_aspect (x : ℚ) (key : ℤ → ℚ) : ℤ :=
  max (if key ⌊x⌋ ≤ key ⌈x⌉ then ⌊x⌋ else ⌈x⌉) 1

/-- PIL `Image.thumbnail(self, (bx, by_))`, dimensions only; the float
aspect arithmetic is modelled exactly over ℚ.  Returns the image unchanged
when it already fits the box, otherwise shrinks it preserving the aspect
ratio so that it fits, clamping each side to at least 1 pixel. -/
def thumbnail (img : Img) (bx by_ : ℤ) : Img :=
  if bx ≥ (img.width : ℤ) ∧ by_ ≥ (img.height : ℤ) then img
  else if (bx : ℚ) / (by_ : ℚ) ≥ (img.width : ℚ) / (img.height : ℚ) then
    ⟨(round_aspect ((by_ : ℚ) * ((img.width : ℚ) / (img.height : ℚ)))
        (fun n => |(img.width : ℚ) / (img.height : ℚ) - (n : ℚ) / (by_ : ℚ)|)).toNat,
      by_.toNat⟩
  else
    ⟨bx.toNat,
      (round_aspect ((bx : ℚ) / ((img.width : ℚ) / (img.height : ℚ)))
        (fun n => if n = 0 then 0
          else |(img.width : ℚ) / (img.height : ℚ) - (bx : ℚ) / (n : ℚ)|)).toNat⟩

/-- The image branch of `process_document` (routes/process.py:76-85): read
`max_dimension` from the current model's parameters (default 1300) and
downscale with `image.thumbnail((max_dimension, max_dimension), LANCZOS)`
when the larger dimension exceeds it.  A `ValueError` from
`get_model_params` propagates; a non-numeric `max_dimension` would make the
`>` comparison raise a `TypeError`. -/
def resize_for_model (st : ModelService) (img : Img) : Except PyErr Img :=
  match get_model_params st none with
  | .error e => .error e
  | .ok params =>
    match dgetD params "max_dimension" (.num 1300) with
    | .num m =>
      .ok (if (max img.width img.height : ℚ) > m
           then thumbnail img ⌊m⌋ ⌊m⌋ else img)
    | _ => .error (.typeError "unorderable comparison")

/-- One page of a pdfium document, identified by its 0-based position; its
graphical content lives behind the abstract `render` function. -/
structure PdfPage where
  idx : Nat
deriving DecidableEq

/-- `pdf_to_images` (routes/process.py:130-168) on a PDF that renders
without error: one `page.render(scale=dpi/72, rotation=0).to_pil()` per
page, in document order.  `render` abstracts pdfium's rasterizer
(page, scale, rotation ↦ image); a rendering failure would raise out of
the loop and is the caller's 500 path, not modelled here. -/
def pdf_to_images (render : PdfPage → ℚ → Nat → Img)
    (pages : List PdfPage) (dpi : ℚ := 300) : List Img :=
  pages.map (fun p => render p (dpi / 72) 0)

/-- The page-break separator (routes/process.py:91). -/
def sep : String := "\n\n--- Page Break ---\n\n"

/-- Python `sep.join(results)`. -/
def join_pages : List String → String
  | [] => ""
  | [t] => t
  | t :: rest => t ++ (sep ++ join_pages rest)

/-- List-level image of `join_pages`, used for occurrence counting. -/
def joinl (s : List Char) : List (List Char) → List Char
  | [] => []
  | [t] => t
  | t :: rest => t ++ (s ++ joinl s rest)

/-- Does the pattern `p` occur in `s` starting at position `i`? -/
def matchAt (p s : List Char) (i : Nat) : Bool :=
  (s.drop i).take p.length == p

/-- Number of positions of `s` at which `p` occurs (occurrences of `p` as a
contiguous substring, overlaps counted). -/
def occurrences (p s : List Char) : Nat :=
  (List.range s.length).countP (fun i => matchAt p s i)

/-- `json.loads` at the upload boundary, modelled as a partial parse into a
dict; `none` is a `json.JSONDecodeError` (the only failure mode the claims
exercise — top-level JSON values that are not objects are out of scope). -/
abbrev JsonParse := String → Option Params

/-- Config parsing at the top of `process_document`
(routes/process.py:39-44): `processing_config = {}`; only a truthy
(non-`None`, non-empty) config string is parsed, and a parse failure keeps
the empty dict (logged, not raised). -/
def parse_config (jp : JsonParse) (config : Option String) : Params :=
  match config with
  | none => []
  | some s => if s = "" then [] else (jp s).getD []

/-- What the upload decodes to: a PDF (its pdfium pages) or a single still
image (the `Image.open` result).  Dispatch between the two in the source
keys on content-type / the `.pdf` suffix; the claims all start from an
already-dispatched input. -/
inductive FileInput where
  | pdfFile (pages : List PdfPage)
  | imageFile (img : Img)

/-- A pipeline failure: `HTTPException(500, "Processing failed: ...")`,
carrying the triggering exception. -/
inductive ProcErr where
  | http (status : Nat) (cause : PIErr)
deriving DecidableEq

/-- The JSON body of a successful `POST /api/process`
(routes/process.py:99-108). -/
structure DocResult where
  success : Bool
  text : String
  filename : String
  pages : Nat
  model_used : String
deriving DecidableEq

/-- The per-page inference loop (routes/process.py:69-73): pages in order,
each through `process_image` with the same overrides, threading the
registry state; the first raised exception aborts the loop (all-or-nothing).
`respF i` is the backend's reply to the request for the page at index `i`. -/
def run_pages (cfgp : Params) (respF : Nat → VLLMResponse) :
    ModelService → List String → Nat → Except PIErr (List String) × ModelService
  | st, [], _ => (.ok [], st)
  | st, b64 :: rest, i =>
    let out := process_image st b64 cfgp (respF i)
    match out.result with
    | .error e => (.error e, out.st)
    | .ok t =>
      let r := run_pages cfgp respF out.st rest (i + 1)
      match r.1 with
      | .ok ts => (.ok (t :: ts), r.2)
      | .error e => (.error e, r.2)

/-- Assembly of the success response (routes/process.py:91-108): join the
page texts with the separator, attach filename, page count and the current
model's display name (a `ValueError` there is caught by the 500 handler). -/
def mkResult (st : ModelService) (filename : String) (texts : List String) :
    Except ProcErr DocResult × ModelService :=
  match get_current_model st with
  | .error e => (.error (.http 500 (.py e)), st)
  | .ok mc => (.ok ⟨true, join_pages texts, filename, texts.length, mc.cfg.display_name⟩, st)

/-- `process_document` (routes/process.py:18-127) from the point where the
upload has been decoded: parse the override config, rasterize, run
inference per page, assemble — any raised exception becomes
`HTTPException(500, ...)`. -/
def process_document (render : PdfPage → ℚ → Nat → Img) (enc : Img → String)
    (jp : JsonParse) (respF : Nat → VLLMResponse) (st : ModelService)
    (filename : String) (config : Option String) (input : FileInput) :
    Except ProcErr DocResult × ModelService :=
  let cfgp := parse_config jp config
  match input with
  | .pdfFile pages =>
    let images := pdf_to_images render pages
    let r := run_pages cfgp respF st (images.map enc) 0
    match r.1 with
    | .error e => (.error (.http 500 e), r.2)
    | .ok texts => mkResult r.2 filename texts
  | .imageFile img =>
    match resize_for_model st img with
    | .error e => (.error (.http 500 (.py e)), st)
    | .ok img2 =>
      let out := process_image st (enc img2) cfgp (respF 0)
      match out.result with
      | .error e => (.error (.http 500 e), out.st)
      | .ok t => mkResult out.st filename [t]

/-! Concrete sample data, used by the witness theorems. -/

/-- A sample model configuration with explicit sampling defaults. -/
def cfgA : MConfig :=
  { display_name := "Model A", model_path := "org/model-a", server_port := 8001,
    parameters? := some [("temperature", .num (0.2 : ℚ)), ("top_p", .num (0.9 : ℚ)),
                         ("max_tokens", .num 6500), ("max_dimension", .num 1300)] }

/-- A second sample model configuration. -/
def cfgB : MConfig :=
  { display_name := "Model B", model_path := "org/model-b", server_port := 8002,
    parameters? := some [("temperature", .num (0.3 : ℚ))] }

/-- A sample registry state: two models, `model-a` current. -/
def st0 : ModelService := ⟨[("model-a", cfgA), ("model-b", cfgB)], "model-a"⟩

/-- A well-formed 200 reply with one choice. -/
def respOk : VLLMResponse := ⟨200, "", some ["hello world"]⟩

/-- A 200 reply whose body has an empty `choices` list. -/
def respEmptyChoices : VLLMResponse := ⟨200, "", some []⟩

/-! ## Claim theorems -/

/-- Claim C2: for every model identifier present in the registry's
configuration map, `switch_model` with that identifier succeeds and returns
the map entry for it plus its id, the only state change is the
current-model identifier, and a subsequent `get_current_model` returns that
same configuration with `id` equal to the identifier. -/
theorem claim_C2 (st : ModelService) (mid : String) (cfg : MConfig)
    (h : lookup st.configurations mid = some cfg) :
    (switch_model st mid).1 = .ok ⟨mid, cfg⟩ ∧
    (switch_model st mid).2 = { st with current_model := mid } ∧
    get_current_model (switch_model st mid).2 = .ok ⟨mid, cfg⟩ := by
  simp [switch_model, get_current_model, h]

/-- Witness for C2 at a concrete registry: switching to `model-b`. -/
theorem claim_C2_witness :
    (switch_model st0 "model-b").1 = .ok ⟨"model-b", cfgB⟩ ∧
    (switch_model st0 "model-b").2 = { st0 with current_model := "model-b" } ∧
    get_current_model (switch_model st0 "model-b").2 = .ok ⟨"model-b", cfgB⟩ :=
  claim_C2 st0 "model-b" cfgB rfl

/-- Claim C3: `switch_model` on an identifier absent from the configuration
map fails with the `ValueError` (not-found), surfaced by the route handler
as HTTP 404, and leaves the whole state — in particular the result of
`get_current_model` — unchanged. -/
theorem claim_C3 (st : ModelService) (mid : String)
    (h : lookup st.configurations mid = none) :
    (switch_model st mid).1 =
      .error (.valueError ("Model " ++ mid ++ " not found in available models")) ∧
    (switch_model st mid).2 = st ∧
    get_current_model (switch_model st mid).2 = get_current_model st ∧
    (route_switch_model st mid).1 =
      .httpError 404 ("Model " ++ mid ++ " not found in available models") ∧
    (route_switch_model st mid).2 = st := by
  simp [switch_model, route_switch_model, h]

/-- Witness for C3 at a concrete registry: switching to an unknown id. -/
theorem claim_C3_witness :
    (switch_model st0 "nope").1 =
      .error (.valueError ("Model " ++ "nope" ++ " not found in available models")) ∧
    (switch_model st0 "nope").2 = st0 ∧
    get_current_model (switch_model st0 "nope").2 = get_current_model st0 ∧
    (route_switch_model st0 "nope").1 =
      .httpError 404 ("Model " ++ "nope" ++ " not found in available models") ∧
    (route_switch_model st0 "nope").2 = st0 :=
  claim_C3 st0 "nope" rfl

/-- Claim C10: any `switch_model` call, successful or not, leaves the
configuration map itself untouched, so `get_all_models` and
`get_model_params` at every explicit identifier are unchanged. -/
theorem claim_C10 (st : ModelService) (mid : String) :
    (switch_model st mid).2.configurations = st.configurations ∧
    get_all_models (switch_model st mid).2 = get_all_models st ∧
    ∀ id2 : String,
      get_model_params (switch_model st mid).2 (some id2) =
        get_model_params st (some id2) := by
  by_cases hs : (lookup st.configurations mid).isSome = true
  · simp [switch_model, hs, get_all_models, get_model_params]
  · simp [switch_model, hs, get_all_models, get_model_params]

/-- Claim C1, checked at a concrete input (code bug): before the call the
stored default temperature of the current model is 0.2; a `process_image`
call with the non-empty override `{"temperature": 0.5}` succeeds, but
afterwards `get_model_params` on the registry reports temperature 0.5 —
`model_params.update(config)` mutated the stored parameter dict through the
alias created by the `{'id': ..., **models[id]}` shallow copy — and a
second `process_image` call *without* overrides then sends temperature 0.5
instead of the loaded default. -/
theorem claim_C1_bug :
    (∃ ps, get_model_params st0 none = .ok ps ∧
       dget ps "temperature" = some (.num (0.2 : ℚ))) ∧
    (process_image st0 "IMG" [("temperature", .num (0.5 : ℚ))] respOk).result =
      .ok "hello world" ∧
    (∃ ps,
       get_model_params
         (process_image st0 "IMG" [("temperature", .num (0.5 : ℚ))] respOk).st none =
         .ok ps ∧
       dget ps "temperature" = some (.num (0.5 : ℚ))) ∧
    ∃ pay,
      (process_image
        (process_image st0 "IMG" [("temperature", .num (0.5 : ℚ))] respOk).st
        "IMG2" [] respOk).payload? = some pay ∧
      dget pay "temperature" = some (.num (0.5 : ℚ)) :=
  ⟨⟨_, rfl, rfl⟩, rfl, ⟨_, rfl, rfl⟩, ⟨_, rfl, rfl⟩⟩

/-! Dictionary lemmas for the override-merge claims. -/

/-- `dget` on an empty dict. -/
theorem dget_nil (k : String) : dget [] k = none := rfl

/-- `dget` unfolding on a cons cell. -/
theorem dget_cons (p : String × JVal) (d : Params) (k : String) :
    dget (p :: d) k = if p.1 == k then some p.2 else dget d k := by
  cases hk : (p.1 == k) with
  | true => simp [dget, List.find?_cons, hk]
  | false => simp [dget, List.find?_cons, hk]

/-- `dmem` unfolding on a cons cell. -/
theorem dmem_cons (p : String × JVal) (d : Params) (k : String) :
    dmem (p :: d) k = if p.1 == k then true else dmem d k := by
  rw [dmem, dget_cons]
  by_cases hk : (p.1 == k) = true
  · rw [if_pos hk, if_pos hk]
    rfl
  · rw [if_neg hk, if_neg hk]
    rfl

/-- After `d[k] = v` through `dset`'s overwrite path, looking up `k` finds
`v`. -/
theorem dget_map_set_of_mem (d : Params) (k : String) (v : JVal)
    (h : dmem d k = true) :
    dget (d.map (fun q => if q.1 == k then (k, v) else q)) k = some v := by
  induction d with
  | nil => simp [dmem, dget] at h
  | cons p d ih =>
    rw [List.map_cons]
    by_cases hk : (p.1 == k) = true
    · rw [if_pos hk, dget_cons]
      simp
    · rw [if_neg hk, dget_cons, if_neg hk]
      apply ih
      rw [dmem_cons, if_neg hk] at h
      exact h

/-- After `d[k] = v` through `dset`'s append path, looking up `k` finds
`v`. -/
theorem dget_append_set_of_notmem (d : Params) (k : String) (v : JVal)
    (h : dmem d k = false) :
    dget (d ++ [(k, v)]) k = some v := by
  induction d with
  | nil => simp [dget_cons]
  | cons p d ih =>
    have hk : (p.1 == k) = false := by
      by_contra hc
      rw [dmem_cons, if_pos (eq_true_of_ne_false hc)] at h
      simp at h
    rw [List.cons_append, dget_cons, if_neg (by simp [hk])]
    apply ih
    rw [dmem_cons, if_neg (by simp [hk])] at h
    exact h

/-- `dget (dset d k v) k = some v`. -/
theorem dget_dset_self (d : Params) (k : String) (v : JVal) :
    dget (dset d k v) k = some v := by
  unfold dset
  by_cases h : dmem d k
  · rw [if_pos h]
    exact dget_map_set_of_mem d k v h
  · have h' : dmem d k = false := by simpa using h
    rw [if_neg h]
    exact dget_append_set_of_notmem d k v h'

/-- `dset`'s overwrite path does not disturb lookups at other keys. -/
theorem dget_map_set_ne (d : Params) (k k' : String) (v : JVal) (h : k' ≠ k) :
    dget (d.map (fun q => if q.1 == k then (k, v) else q)) k' = dget d k' := by
  have h1 : ((k : String) == k') = false := beq_eq_false_iff_ne.mpr (Ne.symm h)
  induction d with
  | nil => rfl
  | cons p d ih =>
    rw [List.map_cons]
    by_cases hk : (p.1 == k) = true
    · have hpk : p.1 = k := by simpa using hk
      have h2 : (p.1 == k') = false := by rw [hpk]; exact h1
      rw [if_pos hk, dget_cons, dget_cons, if_neg (by simp [h1]), if_neg (by simp [h2])]
      exact ih
    · rw [if_neg hk, dget_cons, dget_cons]
      by_cases hk' : (p.1 == k') = true
      · rw [if_pos hk', if_pos hk']
      · rw [if_neg hk', if_neg hk']
        exact ih

/-- `dset`'s append path does not disturb lookups at other keys. -/
theorem dget_append_single_ne (d : Params) (k k' : String) (v : JVal)
    (h : k' ≠ k) :
    dget (d ++ [(k, v)]) k' = dget d k' := by
  have h1 : ((k : String) == k') = false := beq_eq_false_iff_ne.mpr (Ne.symm h)
  induction d with
  | nil =>
    rw [List.nil_append, dget_cons, if_neg (by simp [h1])]
  | cons p d ih =>
    rw [List.cons_append, dget_cons, dget_cons]
    by_cases hk' : (p.1 == k') = true
    · rw [if_pos hk', if_pos hk']
    · rw [if_neg hk', if_neg hk']
      exact ih

/-- `dset` does not disturb lookups at other keys. -/
theorem dget_dset_ne (d : Params) (k k' : String) (v : JVal) (h : k' ≠ k) :
    dget (dset d k v) k' = dget d k' := by
  unfold dset
  by_cases hm : dmem d k
  · rw [if_pos hm]
    exact dget_map_set_ne d k k' v h
  · rw [if_neg hm]
    exact dget_append_single_ne d k k' v h

/-- `dict.update` leaves keys absent from the update dict alone. -/
theorem dget_dupdate_notmem (c : Params) (k : String) (h : dget c k = none) :
    ∀ d : Params, dget (dupdate d c) k = dget d k := by
  induction c with
  | nil => intro d; rfl
  | cons p c ih =>
    intro d
    rw [dget_cons] at h
    have hk : (p.1 == k) = false := by
      by_contra hc
      rw [if_pos (eq_true_of_ne_false hc)] at h
      exact Option.some_ne_none _ h
    rw [if_neg (by simp [hk])] at h
    have hne : k ≠ p.1 := Ne.symm (beq_eq_false_iff_ne.mp hk)
    show dget (dupdate (dset d p.1 p.2) c) k = dget d k
    rw [ih h]
    exact dget_dset_ne d p.1 k p.2 hne

/-- `dict.update` installs every key of the update dict (keys unique). -/
theorem dget_dupdate_mem (c : Params) (k : String) (v : JVal)
    (hnd : (c.map Prod.fst).Nodup) (h : dget c k = some v) :
    ∀ d : Params, dget (dupdate d c) k = some v := by
  induction c with
  | nil => intro d; simp [dget] at h
  | cons p c ih =>
    intro d
    rw [dget_cons] at h
    by_cases hk : (p.1 == k) = true
    · have hp1 : p.1 = k := by simpa using hk
      have hv : p.2 = v := by
        rw [if_pos hk] at h
        exact Option.some_inj.mp h
      have hnotin : dget c k = none := by
        rcases List.nodup_cons.mp hnd with ⟨hni, _⟩
        rw [dget, List.find?_eq_none.mpr, Option.map_none']
        intro x hx hbx
        have hx1 : x.1 = k := by simpa using hbx
        exact hni (by simpa [hp1, hx1] using List.mem_map_of_mem Prod.fst hx)
      show dget (dupdate (dset d p.1 p.2) c) k = some v
      rw [dget_dupdate_notmem c k hnotin _, hp1, hv]
      exact dget_dset_self d k v
    · rw [if_neg hk] at h
      show dget (dupdate (dset d p.1 p.2) c) k = some v
      exact ih (List.nodup_cons.mp hnd).2 h _

/-- The merged parameter dict of `process_image` reads back exactly as the
spec describes the overlay: override value if present, else the stored
default, else the built-in fallback. -/
theorem merged_get (stored config : Params) (k : String) (dflt : JVal)
    (hnd : (config.map Prod.fst).Nodup) :
    dgetD (if config.isEmpty then stored else dupdate stored config) k dflt =
      specParamValue config stored k dflt := by
  by_cases he : config.isEmpty
  · have hc : config = [] := by simpa using he
    subst hc
    rw [if_pos he]
    unfold specParamValue
    rw [dget_nil, dgetD]
    cases hs : dget stored k <;> simp [hs]
  · rw [if_neg he]
    unfold specParamValue
    cases hc : dget config k with
    | some v =>
      rw [dgetD, dget_dupdate_mem config k v hnd hc stored]
      rfl
    | none =>
      rw [dgetD, dget_dupdate_notmem config k hc stored]
      cases hs : dget stored k <;> simp [hs]

/-! Helper lemmas about `process_image`. -/

/-- Whatever the backend replies, the outgoing payload is the dict literal
built over the merged parameter set. -/
theorem process_image_payload (st : ModelService) (b64 : String)
    (config : Params) (resp : VLLMResponse) (mc : CurrentModel)
    (h : get_current_model st = .ok mc) :
    (process_image st b64 config resp).payload? =
      some (mkPayload mc.cfg.model_path b64
        (if config.isEmpty then mc.cfg.parameters?.getD []
         else dupdate (mc.cfg.parameters?.getD []) config)) := by
  simp only [process_image, h]
  split
  · rfl
  · split <;> rfl

/-- A 200 reply without a non-empty `choices` list makes `process_image`
raise the "No text content in vLLM response" exception. -/
theorem process_image_malformed (st : ModelService) (b64 : String)
    (config : Params) (resp : VLLMResponse) (mc : CurrentModel)
    (h : get_current_model st = .ok mc) (h200 : resp.status = 200)
    (hch : resp.choices? = none ∨ resp.choices? = some []) :
    (process_image st b64 config resp).result = .error .malformedResponse := by
  simp only [process_image, h]
  rw [if_neg (by rw [h200]; exact fun hc => hc rfl)]
  rcases hch with hch | hch <;> rw [hch]

/-- A 200 reply with a non-empty `choices` list makes `process_image`
return the first choice's message content. -/
theorem process_image_first_choice (st : ModelService) (b64 : String)
    (config : Params) (resp : VLLMResponse) (mc : CurrentModel)
    (c : String) (cs : List String)
    (h : get_current_model st = .ok mc) (h200 : resp.status = 200)
    (hch : resp.choices? = some (c :: cs)) :
    (process_image st b64 config resp).result = .ok c := by
  simp only [process_image, h]
  rw [if_neg (by rw [h200]; exact fun hc => hc rfl)]
  rw [hch]

/-- Reading `temperature` off the payload literal. -/
theorem dget_mkPayload_temperature (path b64 : String) (mp : Params) :
    dget (mkPayload path b64 mp) "temperature" =
      some (dgetD mp "temperature" (.num (0.2 : ℚ))) := rfl

/-- Reading `top_p` off the payload literal. -/
theorem dget_mkPayload_top_p (path b64 : String) (mp : Params) :
    dget (mkPayload path b64 mp) "top_p" =
      some (dgetD mp "top_p" (.num (0.9 : ℚ))) := rfl

/-- Reading `max_tokens` off the payload literal. -/
theorem dget_mkPayload_max_tokens (path b64 : String) (mp : Params) :
    dget (mkPayload path b64 mp) "max_tokens" =
      some (dgetD mp "max_tokens" (.num 6500)) := rfl

/-- Claim C4: the outgoing request's temperature, top_p and max_tokens each
equal the caller's override when present, otherwise the current model's
configured default, otherwise the built-in fallback (0.2 / 0.9 / 6500).
(Override dicts come from `json.loads`, so their keys are unique.) -/
theorem claim_C4 (st : ModelService) (b64 : String) (config : Params)
    (resp : VLLMResponse) (mc : CurrentModel)
    (h : get_current_model st = .ok mc)
    (hnd : (config.map Prod.fst).Nodup) :
    ∃ pay, (process_image st b64 config resp).payload? = some pay ∧
      dget pay "temperature" =
        some (specParamValue config (mc.cfg.parameters?.getD []) "temperature"
          (.num (0.2 : ℚ))) ∧
      dget pay "top_p" =
        some (specParamValue config (mc.cfg.parameters?.getD []) "top_p"
          (.num (0.9 : ℚ))) ∧
      dget pay "max_tokens" =
        some (specParamValue config (mc.cfg.parameters?.getD []) "max_tokens"
          (.num 6500)) := by
  refine ⟨_, process_image_payload st b64 config resp mc h, ?_, ?_, ?_⟩
  · rw [dget_mkPayload_temperature, merged_get _ _ _ _ hnd]
  · rw [dget_mkPayload_top_p, merged_get _ _ _ _ hnd]
  · rw [dget_mkPayload_max_tokens, merged_get _ _ _ _ hnd]

/-- Witness for C4, the spec's own example: override temperature 0.5 on a
model whose defaults are temperature 0.2, top_p 0.9, max_tokens 6500 —
the outgoing request carries 0.5 / 0.9 / 6500. -/
theorem claim_C4_witness :
    ∃ pay,
      (process_image st0 "IMG" [("temperature", .num (0.5 : ℚ))] respOk).payload? =
        some pay ∧
      dget pay "temperature" = some (.num (0.5 : ℚ)) ∧
      dget pay "top_p" = some (.num (0.9 : ℚ)) ∧
      dget pay "max_tokens" = some (.num 6500) := by
  obtain ⟨pay, hp, h1, h2, h3⟩ :=
    claim_C4 st0 "IMG" [("temperature", .num (0.5 : ℚ))] respOk
      ⟨"model-a", cfgA⟩ rfl (by simp)
  exact ⟨pay, hp, h1, h2, h3⟩

/-- Counterexample to claim C5 as stated: the override key `foo` is in the
override config but the outgoing request contains no `foo` key at all —
unrecognized override keys are not forwarded to the backend. -/
theorem claim_C5_counterexample :
    dget [("foo", JVal.num 1)] "foo" = some (.num 1) ∧
    (process_image st0 "IMG" [("foo", JVal.num 1)] respOk).payload?.isSome = true ∧
    dget ((process_image st0 "IMG" [("foo", JVal.num 1)] respOk).payload?.getD [])
      "foo" = none :=
  ⟨rfl, rfl, rfl⟩

/-- Claim C5 as amended: override keys other than temperature, top_p and
max_tokens are merged into the in-memory parameter set but are *dropped*
from the outgoing request — the payload only ever carries the keys model,
messages, temperature, top_p and max_tokens. -/
theorem claim_C5_amended (st : ModelService) (b64 : String) (config : Params)
    (resp : VLLMResponse) (mc : CurrentModel)
    (h : get_current_model st = .ok mc) (k : String)
    (hk : k ∉ (["model", "messages", "temperature", "top_p", "max_tokens"] :
      List String)) :
    ∃ pay, (process_image st b64 config resp).payload? = some pay ∧
      dget pay k = none := by
  refine ⟨_, process_image_payload st b64 config resp mc h, ?_⟩
  have h1 : ("model" == k) = false :=
    beq_eq_false_iff_ne.mpr (fun hc => hk (by simp [hc.symm]))
  have h2 : ("messages" == k) = false :=
    beq_eq_false_iff_ne.mpr (fun hc => hk (by simp [hc.symm]))
  have h3 : ("temperature" == k) = false :=
    beq_eq_false_iff_ne.mpr (fun hc => hk (by simp [hc.symm]))
  have h4 : ("top_p" == k) = false :=
    beq_eq_false_iff_ne.mpr (fun hc => hk (by simp [hc.symm]))
  have h5 : ("max_tokens" == k) = false :=
    beq_eq_false_iff_ne.mpr (fun hc => hk (by simp [hc.symm]))
  simp [mkPayload, dget_cons, h1, h2, h3, h4, h5, dget_nil]

/-- Witness for the amended C5 at the concrete unrecognized key `foo`. -/
theorem claim_C5_witness :
    ∃ pay,
      (process_image st0 "IMG" [("foo", JVal.num 1)] respOk).payload? = some pay ∧
      dget pay "foo" = none :=
  claim_C5_amended st0 "IMG" [("foo", JVal.num 1)] respOk ⟨"model-a", cfgA⟩ rfl
    "foo" (by simp)

/-- Claim C8: on a 200 reply whose body lacks the expected choices shape
(no `choices` key, or an empty list) `process_image` fails with the
malformed-response error and the pipeline returns an error — no partial
transcript; on a non-empty `choices` list it returns the first choice's
message content. -/
theorem claim_C8 (st : ModelService) (b64 : String) (config : Params)
    (mc : CurrentModel) (h : get_current_model st = .ok mc) :
    (∀ resp : VLLMResponse, resp.status = 200 →
       (resp.choices? = none ∨ resp.choices? = some []) →
       (process_image st b64 config resp).result = .error .malformedResponse) ∧
    (∀ (resp : VLLMResponse) (c : String) (cs : List String),
       resp.status = 200 → resp.choices? = some (c :: cs) →
       (process_image st b64 config resp).result = .ok c) ∧
    (∀ (render : PdfPage → ℚ → Nat → Img) (enc : Img → String) (jp : JsonParse)
       (respF : Nat → VLLMResponse) (filename : String) (cfgStr : Option String)
       (img img2 : Img),
       resize_for_model st img = .ok img2 →
       (respF 0).status = 200 →
       ((respF 0).choices? = none ∨ (respF 0).choices? = some []) →
       (process_document render enc jp respF st filename cfgStr
          (.imageFile img)).1 = .error (.http 500 .malformedResponse)) := by
  refine ⟨fun resp h200 hch => process_image_malformed st b64 config resp mc h h200 hch,
    fun resp c cs h200 hch => process_image_first_choice st b64 config resp mc c cs h h200 hch,
    fun render enc jp respF filename cfgStr img img2 hrz h200 hch => ?_⟩
  simp only [process_document, hrz]
  rw [process_image_malformed st (enc img2) (parse_config jp cfgStr) (respF 0) mc h h200 hch]

/-- Witness for C8: empty choices fail with the malformed-response error
(both in the client and through the whole pipeline), non-empty choices
return the first message content. -/
theorem claim_C8_witness :
    (process_image st0 "IMG" [] respEmptyChoices).result =
      .error .malformedResponse ∧
    (process_image st0 "IMG" [] respOk).result = .ok "hello world" ∧
    (process_document (fun _ _ _ => ⟨1, 1⟩) (fun _ => "B") (fun _ => none)
       (fun _ => respEmptyChoices) st0 "f.png" none (.imageFile ⟨100, 100⟩)).1 =
      .error (.http 500 .malformedResponse) := by
  obtain ⟨h1, h2, h3⟩ := claim_C8 st0 "IMG" [] ⟨"model-a", cfgA⟩ rfl
  exact ⟨h1 respEmptyChoices rfl (Or.inr rfl),
    h2 respOk "hello world" [] rfl rfl,
    h3 _ _ _ _ "f.png" none ⟨100, 100⟩ ⟨100, 100⟩ rfl rfl (Or.inr rfl)⟩

/-- Claim C9: a config string that fails JSON parsing makes the pipeline
proceed exactly as if no config had been supplied — the whole
`process_document` run (result and final state) is identical. -/
theorem claim_C9 (render : PdfPage → ℚ → Nat → Img) (enc : Img → String)
    (jp : JsonParse) (respF : Nat → VLLMResponse) (st : ModelService)
    (filename : String) (s : String) (hs : jp s = none) (input : FileInput) :
    process_document render enc jp respF st filename (some s) input =
      process_document render enc jp respF st filename none input := by
  unfold process_document
  have hpc : parse_config jp (some s) = parse_config jp none := by
    by_cases he : s = ""
    · simp [parse_config, he]
    · simp [parse_config, he, hs]
  rw [hpc]

/-- Witness for C9: a concrete malformed config string against a parser
that rejects it. -/
theorem claim_C9_witness :
    process_document (fun _ _ _ => ⟨1, 1⟩) (fun _ => "B") (fun _ => none)
        (fun _ => respOk) st0 "f.png" (some "not json")
        (.imageFile ⟨10, 10⟩) =
      process_document (fun _ _ _ => ⟨1, 1⟩) (fun _ => "B") (fun _ => none)
        (fun _ => respOk) st0 "f.png" none (.imageFile ⟨10, 10⟩) :=
  claim_C9 _ _ _ _ st0 "f.png" "not json" rfl _

/-! Lemmas for the image-resize claim. -/

/-- `round_aspect` always lands between floor and ceiling of its argument
(and at least 1), whatever the tie-breaking key computes. -/
theorem round_aspect_bounds (t : ℚ) (key : ℤ → ℚ) (ht : 0 < t) :
    ⌊t⌋ ≤ round_aspect t key ∧ round_aspect t key ≤ ⌈t⌉ ∧
      1 ≤ round_aspect t key := by
  have hc1 : (1 : ℤ) ≤ ⌈t⌉ := Int.ceil_pos.mpr ht
  have hfc : ⌊t⌋ ≤ ⌈t⌉ := Int.floor_le_ceil t
  unfold round_aspect
  by_cases hk : key ⌊t⌋ ≤ key ⌈t⌉
  · rw [if_pos hk]
    exact ⟨le_max_left _ _, max_le hfc hc1, le_max_right _ _⟩
  · rw [if_neg hk]
    exact ⟨le_trans hfc (le_max_left _ _), max_le le_rfl hc1, le_max_right _ _⟩

/-- An integer between the floor and the ceiling of `t` is within one of
`t`. -/
theorem near_of_floor_le_le_ceil (t : ℚ) (x : ℤ) (h1 : ⌊t⌋ ≤ x)
    (h2 : x ≤ ⌈t⌉) : |(x : ℚ) - t| ≤ 1 := by
  rw [abs_le]
  have hf : (⌊t⌋ : ℚ) ≤ (x : ℚ) := by exact_mod_cast h1
  have hc : (x : ℚ) ≤ (⌈t⌉ : ℚ) := by exact_mod_cast h2
  constructor
  · linarith [Int.sub_one_lt_floor t]
  · linarith [Int.ceil_lt_add_one t]

/-- Dimension behaviour of PIL `thumbnail` with a square box of side
`m ≥ 1` on an image strictly larger than the box: the larger output
dimension is exactly `m` and the smaller one is within one pixel of exact
aspect scaling. -/
theorem thumbnail_dims (w h : ℕ) (m : ℤ) (hm : 1 ≤ m) (hw : 0 < w)
    (hh : 0 < h) (hbig : m < (max w h : ℤ)) :
    ∃ w2 h2 : ℕ, thumbnail ⟨w, h⟩ m m = ⟨w2, h2⟩ ∧
      (max w2 h2 : ℤ) = m ∧
      |(min w2 h2 : ℚ) - (m : ℚ) * (min w h : ℚ) / (max w h : ℚ)| ≤ 1 := by
  have hw' : (0 : ℚ) < (w : ℚ) := by exact_mod_cast hw
  have hh' : (0 : ℚ) < (h : ℚ) := by exact_mod_cast hh
  have hm0 : (0 : ℤ) < m := lt_of_lt_of_le one_pos hm
  have hm' : (0 : ℚ) < (m : ℚ) := by exact_mod_cast hm0
  have hguard : ¬(m ≥ ((⟨w, h⟩ : Img).width : ℤ) ∧ m ≥ ((⟨w, h⟩ : Img).height : ℤ)) := by
    rintro ⟨h1, h2⟩
    have hwm : (w : ℤ) ≤ m := h1
    have hhm : (h : ℤ) ≤ m := h2
    omega
  have hdivmm : (m : ℚ) / (m : ℚ) = 1 := div_self (ne_of_gt hm')
  unfold thumbnail
  rw [if_neg hguard]
  by_cases hwh : w ≤ h
  · -- tall or square: the box-aspect test succeeds, height pinned to m
    have haspect : ((⟨w, h⟩ : Img).width : ℚ) / ((⟨w, h⟩ : Img).height : ℚ) ≤ 1 := by
      show (w : ℚ) / (h : ℚ) ≤ 1
      rw [div_le_one hh']
      exact_mod_cast hwh
    rw [if_pos (by rw [hdivmm]; exact haspect)]
    set t : ℚ := (m : ℚ) * (((⟨w, h⟩ : Img).width : ℚ) / ((⟨w, h⟩ : Img).height : ℚ)) with hts
    have htval : t = (m : ℚ) * (w : ℚ) / (h : ℚ) := by
      rw [hts]
      show (m : ℚ) * ((w : ℚ) / (h : ℚ)) = _
      ring
    have ht : 0 < t := by rw [htval]; positivity
    obtain ⟨hf, hc, h1⟩ := round_aspect_bounds t
      (fun n => |((⟨w, h⟩ : Img).width : ℚ) / ((⟨w, h⟩ : Img).height : ℚ) - (n : ℚ) / (m : ℚ)|) ht
    set x := round_aspect t
      (fun n => |((⟨w, h⟩ : Img).width : ℚ) / ((⟨w, h⟩ : Img).height : ℚ) - (n : ℚ) / (m : ℚ)|) with hx
    have htm : t ≤ (m : ℚ) := by
      rw [hts]
      calc (m : ℚ) * (((⟨w, h⟩ : Img).width : ℚ) / ((⟨w, h⟩ : Img).height : ℚ))
          ≤ (m : ℚ) * 1 := mul_le_mul_of_nonneg_left haspect (le_of_lt hm')
        _ = (m : ℚ) := mul_one _
    have hxm : x ≤ m := le_trans hc (Int.ceil_le.mpr (by exact_mod_cast htm))
    have hx0 : (0 : ℤ) ≤ x := le_trans one_pos.le h1
    refine ⟨x.toNat, m.toNat, rfl, ?_, ?_⟩
    · rw [Int.toNat_of_nonneg hx0, Int.toNat_of_nonneg (le_of_lt hm0)]
      exact max_eq_right hxm
    · have hxc : ((x.toNat : ℕ) : ℚ) = (x : ℚ) := by
        exact_mod_cast congrArg (fun z : ℤ => (z : ℚ)) (Int.toNat_of_nonneg hx0)
      have hmc : ((m.toNat : ℕ) : ℚ) = (m : ℚ) := by
        exact_mod_cast congrArg (fun z : ℤ => (z : ℚ)) (Int.toNat_of_nonneg (le_of_lt hm0))
      have hxmq : (x : ℚ) ≤ (m : ℚ) := by exact_mod_cast hxm
      have hwhq : (w : ℚ) ≤ (h : ℚ) := by exact_mod_cast hwh
      rw [hxc, hmc, min_eq_left hxmq, min_eq_left hwhq, max_eq_right hwhq, ← htval]
      exact near_of_floor_le_le_ceil t x hf hc
  · -- wide: the box-aspect test fails, width pinned to m
    have hlt : h < w := Nat.lt_of_not_le (fun hc => hwh hc)
    have haspect : 1 < ((⟨w, h⟩ : Img).width : ℚ) / ((⟨w, h⟩ : Img).height : ℚ) := by
      show 1 < (w : ℚ) / (h : ℚ)
      rw [lt_div_iff₀ hh', one_mul]
      exact_mod_cast hlt
    rw [if_neg (by rw [hdivmm]; exact not_le.mpr haspect)]
    set t : ℚ := (m : ℚ) / (((⟨w, h⟩ : Img).width : ℚ) / ((⟨w, h⟩ : Img).height : ℚ)) with hts
    have htval : t = (m : ℚ) * (h : ℚ) / (w : ℚ) := by
      rw [hts]
      show (m : ℚ) / ((w : ℚ) / (h : ℚ)) = _
      field_simp
    have ht : 0 < t := by rw [htval]; positivity
    obtain ⟨hf, hc, h1⟩ := round_aspect_bounds t
      (fun n => if n = 0 then 0
        else |((⟨w, h⟩ : Img).width : ℚ) / ((⟨w, h⟩ : Img).height : ℚ) - (m : ℚ) / (n : ℚ)|) ht
    set y := round_aspect t
      (fun n => if n = 0 then 0
        else |((⟨w, h⟩ : Img).width : ℚ) / ((⟨w, h⟩ : Img).height : ℚ) - (m : ℚ) / (n : ℚ)|) with hy
    have htm : t ≤ (m : ℚ) := by
      rw [htval, mul_div_assoc]
      calc (m : ℚ) * ((h : ℚ) / (w : ℚ))
          ≤ (m : ℚ) * 1 := by
            refine mul_le_mul_of_nonneg_left ?_ (le_of_lt hm')
            rw [div_le_one hw']
            exact_mod_cast le_of_lt hlt
        _ = (m : ℚ) := mul_one _
    have hym : y ≤ m := le_trans hc (Int.ceil_le.mpr (by exact_mod_cast htm))
    have hy0 : (0 : ℤ) ≤ y := le_trans one_pos.le h1
    refine ⟨m.toNat, y.toNat, rfl, ?_, ?_⟩
    · rw [Int.toNat_of_nonneg (le_of_lt hm0), Int.toNat_of_nonneg hy0]
      exact max_eq_left hym
    · have hyc : ((y.toNat : ℕ) : ℚ) = (y : ℚ) := by
        exact_mod_cast congrArg (fun z : ℤ => (z : ℚ)) (Int.toNat_of_nonneg hy0)
      have hmc : ((m.toNat : ℕ) : ℚ) = (m : ℚ) := by
        exact_mod_cast congrArg (fun z : ℤ => (z : ℚ)) (Int.toNat_of_nonneg (le_of_lt hm0))
      have hymq : (y : ℚ) ≤ (m : ℚ) := by exact_mod_cast hym
      have hhwq : (h : ℚ) ≤ (w : ℚ) := by exact_mod_cast le_of_lt hlt
      rw [hyc, hmc, min_eq_right hymq, min_eq_right hhwq, max_eq_left hhwq, ← htval]
      exact near_of_floor_le_le_ceil t y hf hc

/-- Claim C6: with `max_dimension` read from the current model's
parameters (default 1300), a single image whose larger dimension is at most
the limit is passed on unmodified, and one whose larger dimension exceeds
it is downscaled so that the larger output dimension equals the limit
exactly with the aspect ratio preserved within one pixel. -/
theorem claim_C6 (st : ModelService) (img : Img) (params : Params) (m : ℕ)
    (hp : get_model_params st none = .ok params)
    (hm : dgetD params "max_dimension" (.num 1300) = .num (m : ℚ))
    (hm1 : 0 < m) (hw : 0 < img.width) (hh : 0 < img.height) :
    (max img.width img.height ≤ m → resize_for_model st img = .ok img) ∧
    (m < max img.width img.height →
      ∃ w2 h2 : Nat, resize_for_model st img = .ok ⟨w2, h2⟩ ∧
        max w2 h2 = m ∧
        |(min w2 h2 : ℚ) - (m : ℚ) * (min img.width img.height : ℚ) /
          (max img.width img.height : ℚ)| ≤ 1) := by
  obtain ⟨w, h⟩ := img
  simp only at hw hh
  constructor
  · intro hle
    have hq : ¬((max w h : ℚ) > (m : ℚ)) := by
      rw [not_lt]
      exact_mod_cast hle
    simp only [resize_for_model, hp, hm]
    rw [if_neg hq]
  · intro hgt
    have hq : (max w h : ℚ) > (m : ℚ) := by exact_mod_cast hgt
    simp only [resize_for_model, hp, hm]
    rw [if_pos hq]
    have hfl : ⌊((m : ℕ) : ℚ)⌋ = (m : ℤ) := Int.floor_natCast m
    rw [hfl]
    obtain ⟨w2, h2, heq, hmax, hmin⟩ :=
      thumbnail_dims w h (m : ℤ) (by exact_mod_cast hm1) hw hh (by exact_mod_cast hgt)
    refine ⟨w2, h2, by rw [heq], ?_, ?_⟩
    · exact_mod_cast hmax
    · have hmz : (((m : ℕ) : ℤ) : ℚ) = ((m : ℕ) : ℚ) := by push_cast; rfl
      rw [hmz] at hmin
      exact hmin

/-- Witness for C6, the spec's own example: a 2000×1000 image against
`max_dimension` 1300 is resized to exactly 1300×650 (and the general
bounds instantiate to it). -/
theorem claim_C6_witness :
    resize_for_model st0 ⟨2000, 1000⟩ = .ok ⟨1300, 650⟩ ∧
    ∃ w2 h2 : Nat, resize_for_model st0 ⟨2000, 1000⟩ = .ok ⟨w2, h2⟩ ∧
      max w2 h2 = 1300 ∧
      |(min w2 h2 : ℚ) - (1300 : ℚ) * 1000 / 2000| ≤ 1 := by
  have h := (claim_C6 st0 ⟨2000, 1000⟩
      (cfgA.parameters?.getD []) 1300 rfl rfl
      (by norm_num) (by norm_num) (by norm_num)).2 (by norm_num)
  obtain ⟨w2, h2, heq, hmax, hmin⟩ := h
  refine ⟨?_, w2, h2, heq, hmax, by simpa using hmin⟩
  have hgm : get_model_params st0 none = .ok (cfgA.parameters?.getD []) := rfl
  have hdg : dgetD (cfgA.parameters?.getD []) "max_dimension" (.num 1300) =
      .num 1300 := rfl
  simp only [resize_for_model, hgm, hdg]
  norm_num [thumbnail, round_aspect]
  exact ⟨rfl, rfl⟩

/-! Occurrence-counting lemmas for the page-break separator. -/

/-- No occurrences in the empty text. -/
theorem occurrences_nil (p : List Char) : occurrences p [] = 0 := rfl

/-- Peeling one character off the text. -/
theorem occurrences_cons (p : List Char) (c : Char) (w : List Char) :
    occurrences p (c :: w) =
      (if matchAt p (c :: w) 0 then 1 else 0) + occurrences p w := by
  unfold occurrences
  rw [List.length_cons, List.range_succ_eq_map, List.countP_cons, List.countP_map]
  have hms : ((fun i => matchAt p (c :: w) i) ∘ Nat.succ) =
      (fun i => matchAt p w i) := rfl
  rw [hms]
  omega

/-- A text whose characters all avoid the pattern's characters contributes
no occurrence positions when prepended. -/
theorem occurrences_append_left (p : List Char) (hp : p ≠ [])
    (t v : List Char) (ht : ∀ c ∈ t, c ∉ p) :
    occurrences p (t ++ v) = occurrences p v := by
  induction t with
  | nil => rfl
  | cons c t ih =>
    rw [List.cons_append, occurrences_cons]
    have hm : ¬ matchAt p (c :: (t ++ v)) 0 = true := by
      intro hmt
      unfold matchAt at hmt
      rw [List.drop_zero] at hmt
      have heq : (c :: (t ++ v)).take p.length = p := by
        exact_mod_cast (beq_iff_eq).mp hmt
      cases p with
      | nil => exact hp rfl
      | cons q qs =>
        rw [List.length_cons, List.take_succ_cons] at heq
        have hc : c = q := (List.cons.injEq _ _ _ _).mp heq |>.1
        exact (ht c (List.mem_cons_self c t)) (hc ▸ List.mem_cons_self q qs)
    rw [if_neg hm, Nat.zero_add]
    exact ih (fun x hx => ht x (List.mem_cons_of_mem c hx))

/-- Dropping past an appended prefix. -/
theorem drop_append_add (a b : List Char) (i : Nat) :
    (a ++ b).drop (a.length + i) = b.drop i := by
  induction a with
  | nil => simp
  | cons c a ih =>
    have hl : (c :: a).length + i = (a.length + i) + 1 := by
      rw [List.length_cons]
      omega
    rw [List.cons_append, hl, List.drop_succ_cons]
    exact ih

/-- Occurrence positions past an appended prefix are occurrence positions
in the suffix. -/
theorem matchAt_append_shift (p a b : List Char) (i : Nat) :
    matchAt p (a ++ b) (a.length + i) = matchAt p b i := by
  unfold matchAt
  rw [drop_append_add]

/-- Splitting the occurrence count of `a ++ b` at the boundary. -/
theorem occurrences_append (p a b : List Char) :
    occurrences p (a ++ b) =
      (List.range a.length).countP (fun i => matchAt p (a ++ b) i) +
        occurrences p b := by
  unfold occurrences
  rw [List.length_append, List.range_add, List.countP_append, List.countP_map]
  congr 1
  apply List.countP_congr
  intro i _
  show matchAt p (a ++ b) (a.length + i) = true ↔ matchAt p b i = true
  rw [matchAt_append_shift]

/-- No occurrence of the separator can start strictly inside a separator
block that is followed by text starting with a non-separator character:
position `22 - i` of the candidate window falls on that first text
character, which would have to be a character of the separator. -/
theorem matchAt_sep_mid_false (v : List Char) (c0 : Char)
    (hv : v.head? = some c0) (hc : c0 ∉ sep.data) (i : Nat)
    (h1 : 1 ≤ i) (h2 : i < 22) :
    matchAt sep.data (sep.data ++ v) i = false := by
  have hsl : sep.data.length = 22 := rfl
  by_contra hb
  have hm : matchAt sep.data (sep.data ++ v) i = true := by
    revert hb
    cases matchAt sep.data (sep.data ++ v) i <;> simp
  unfold matchAt at hm
  have heq : ((sep.data ++ v).drop i).take sep.data.length = sep.data :=
    beq_iff_eq.mp hm
  rw [List.drop_append_of_le_length (by omega), hsl] at heq
  have hdl : (sep.data.drop i).length = 22 - i := by
    rw [List.length_drop, hsl]
  have hlen22 : 22 ≤ (sep.data.drop i ++ v).length := by
    have hl := congrArg List.length heq
    rw [List.length_take, hsl] at hl
    omega
  have hgv := congrArg (fun l => l[22 - i]?) heq
  simp only [List.getElem?_take] at hgv
  rw [if_pos (by omega : 22 - i < 22),
    List.getElem?_append_right (by omega : (sep.data.drop i).length ≤ 22 - i)] at hgv
  rw [hdl, Nat.sub_self] at hgv
  have hv0 : v[0]? = some c0 := by
    cases v with
    | nil => simp at hv
    | cons a u => simpa using hv
  rw [hv0, List.getElem?_eq_getElem (by omega : 22 - i < sep.data.length)] at hgv
  have hc0 : c0 = sep.data[22 - i] := by
    simpa using hgv
  exact hc (hc0 ▸ List.getElem_mem (by omega))

/-- A separator block followed by text starting with a non-separator
character contributes exactly one occurrence. -/
theorem occurrences_sep_append (v : List Char) (c0 : Char)
    (hv : v.head? = some c0) (hc : c0 ∉ sep.data) :
    occurrences sep.data (sep.data ++ v) = 1 + occurrences sep.data v := by
  have hsl : sep.data.length = 22 := rfl
  rw [occurrences_append]
  have h0 : matchAt sep.data (sep.data ++ v) 0 = true := by
    unfold matchAt
    rw [List.drop_zero, List.take_left]
    exact beq_self_eq_true _
  have hcnt : (List.range sep.data.length).countP
      (fun i => matchAt sep.data (sep.data ++ v) i) = 1 := by
    rw [hsl, show (22 : Nat) = 21 + 1 from rfl, List.range_succ_eq_map,
      List.countP_cons, List.countP_map]
    have hz : (List.range 21).countP
        ((fun i => matchAt sep.data (sep.data ++ v) i) ∘ Nat.succ) = 0 := by
      rw [List.countP_eq_zero]
      intro j hj
      have hj21 : j < 21 := List.mem_range.mp hj
      show ¬ matchAt sep.data (sep.data ++ v) (Nat.succ j) = true
      rw [matchAt_sep_mid_false v c0 hv hc (j + 1) (by omega) (by omega)]
      simp
    rw [hz, h0]
    simp
  rw [hcnt]

/-- The head of a joined non-empty text list is the head of its first
text. -/
theorem joinl_head (s : List Char) (t : List Char) (ts : List (List Char))
    (ht : t ≠ []) :
    (joinl s (t :: ts)).head? = t.head? := by
  cases ts with
  | nil => rfl
  | cons u us =>
    show (t ++ (s ++ joinl s (u :: us))).head? = t.head?
    cases t with
    | nil => exact absurd rfl ht
    | cons c t' => rfl

/-- The page-break count of a joined list of non-empty, separator-free
texts is the number of texts minus one. -/
theorem occurrences_joinl (ts : List (List Char)) (hne : ts ≠ [])
    (ht : ∀ t ∈ ts, t ≠ [] ∧ ∀ c ∈ t, c ∉ sep.data) :
    occurrences sep.data (joinl sep.data ts) = ts.length - 1 := by
  have hsep : sep.data ≠ [] := by decide
  induction ts with
  | nil => exact absurd rfl hne
  | cons t ts ih =>
    cases ts with
    | nil =>
      show occurrences sep.data t = 0
      have h0 := occurrences_append_left sep.data hsep t []
        (ht t (List.mem_cons_self t [])).2
      rw [List.append_nil] at h0
      rw [h0, occurrences_nil]
    | cons u us =>
      show occurrences sep.data (t ++ (sep.data ++ joinl sep.data (u :: us))) =
        (t :: u :: us).length - 1
      rw [occurrences_append_left sep.data hsep t _
        (ht t (List.mem_cons_self t _)).2]
      have hu := ht u (List.mem_cons_of_mem t (List.mem_cons_self u us))
      obtain ⟨c0, hc0⟩ : ∃ c0, u.head? = some c0 := by
        cases u with
        | nil => exact absurd rfl hu.1
        | cons c u' => exact ⟨c, rfl⟩
      have hc0mem : c0 ∉ sep.data := by
        apply hu.2
        cases u with
        | nil => simp at hc0
        | cons c u' =>
          have : c = c0 := by simpa using hc0
          exact this ▸ List.mem_cons_self c u'
      rw [occurrences_sep_append (joinl sep.data (u :: us)) c0
        (by rw [joinl_head sep.data u us hu.1]; exact hc0) hc0mem]
      rw [ih (by simp) (fun x hx => ht x (List.mem_cons_of_mem t hx))]
      simp only [List.length_cons]
      omega

/-- `join_pages` at the character level is `joinl` over the page texts. -/
theorem join_pages_data (ts : List String) :
    (join_pages ts).data = joinl sep.data (ts.map String.data) := by
  induction ts with
  | nil => rfl
  | cons t ts ih =>
    cases ts with
    | nil => rfl
    | cons u us =>
      show (t ++ (sep ++ join_pages (u :: us))).data =
        t.data ++ (sep.data ++ joinl sep.data ((u :: us).map String.data))
      rw [String.data_append, String.data_append, ih]

/-- A successful inference loop returns exactly one text per input page. -/
theorem run_pages_length (cfgp : Params) (respF : Nat → VLLMResponse) :
    ∀ (b64s : List String) (st : ModelService) (i : Nat)
      (texts : List String) (st' : ModelService),
      run_pages cfgp respF st b64s i = (.ok texts, st') →
      texts.length = b64s.length := by
  intro b64s
  induction b64s with
  | nil =>
    intro st i texts st' h
    unfold run_pages at h
    have : texts = [] := by
      have := congrArg Prod.fst h
      simpa using this.symm
    simp [this]
  | cons b bs ih =>
    intro st i texts st' h
    simp only [run_pages] at h
    cases hr : (process_image st b cfgp (respF i)).result with
    | error e => rw [hr] at h; simp at h
    | ok t =>
      rw [hr] at h
      cases hrec : run_pages cfgp respF (process_image st b cfgp (respF i)).st
          bs (i + 1) with
      | mk r1 st2 =>
        rw [hrec] at h
        cases r1 with
        | error e => simp at h
        | ok ts =>
          have hts : texts = t :: ts := by
            have := congrArg Prod.fst h
            simpa using this.symm
          subst hts
          rw [List.length_cons, List.length_cons,
            ih _ _ _ _ hrec]

/-- The joined text's length counts the separator insertions exactly:
joining N texts inserts the separator exactly N−1 times, whatever the
texts contain. -/
theorem joinl_length (s : List Char) (ts : List (List Char)) :
    (joinl s ts).length = (ts.map List.length).sum + (ts.length - 1) * s.length := by
  induction ts with
  | nil => simp [joinl]
  | cons t ts ih =>
    cases ts with
    | nil => simp [joinl]
    | cons u us =>
      show (t ++ (s ++ joinl s (u :: us))).length = _
      rw [List.length_append, List.length_append, ih]
      simp only [List.map_cons, List.sum_cons, List.length_cons,
        Nat.add_sub_cancel]
      ring

/-- Each of the N−1 separator insertions is an occurrence, whatever the
texts contain: the joined text always has at least N−1 occurrences. -/
theorem occurrences_joinl_ge (ts : List (List Char)) :
    ts.length - 1 ≤ occurrences sep.data (joinl sep.data ts) := by
  induction ts with
  | nil => simp
  | cons t ts ih =>
    cases ts with
    | nil => simp
    | cons u us =>
      show (t :: u :: us).length - 1 ≤
        occurrences sep.data (t ++ (sep.data ++ joinl sep.data (u :: us)))
      rw [occurrences_append]
      have h1 : 1 + occurrences sep.data (joinl sep.data (u :: us)) ≤
          occurrences sep.data (sep.data ++ joinl sep.data (u :: us)) := by
        rw [occurrences_append]
        have h0 : matchAt sep.data
            (sep.data ++ joinl sep.data (u :: us)) 0 = true := by
          unfold matchAt
          rw [List.drop_zero, List.take_left]
          exact beq_self_eq_true _
        have hpos : 0 < (List.range sep.data.length).countP
            (fun i => matchAt sep.data
              (sep.data ++ joinl sep.data (u :: us)) i) := by
          apply List.countP_pos_iff.mpr
          exact ⟨0, List.mem_range.mpr
            (by rw [show sep.data.length = 22 from rfl]; omega), h0⟩
        omega
      have h2 := ih
      simp only [List.length_cons] at h2 ⊢
      omega

/-- Counterexample to claim C7 as stated: when the backend's page-one text
itself contains the page-break separator, a successful two-page run
produces a transcript with two separator occurrences, not N−1 = 1 — the
occurrence count of the assembled transcript is not determined by the page
count alone. -/
theorem claim_C7_counterexample :
    (process_document (fun p _ _ => ⟨p.idx + 1, 1⟩) (fun _ => "B")
       (fun _ => none)
       (fun i => ⟨200, "", some [if i = 0 then "x" ++ sep ++ "y" else "z"]⟩)
       st0 "doc.pdf" none (.pdfFile [⟨0⟩, ⟨1⟩])).1 =
      .ok ⟨true, join_pages ["x" ++ sep ++ "y", "z"], "doc.pdf", 2,
        "Model A"⟩ ∧
    occurrences sep.data (join_pages ["x" ++ sep ++ "y", "z"]).data = 2 :=
  ⟨rfl, by decide⟩

/-- Claim C7 as amended: for a PDF that renders without error,
rasterization yields exactly one image per page, in document order, each
rendered at scale 300/72 with rotation 0; a successful inference loop
yields one text per page; assembly joins the page texts with the
page-break separator inserted exactly N−1 times — the transcript's length
is the sum of the page-text lengths plus (N−1) times the separator's
length, it always contains at least N−1 occurrences of the separator, and
exactly N−1 when the page texts avoid the separator's characters (a page
text containing separator fragments can add occurrences, as the
counterexample shows); a zero-page PDF is a successful empty result, not
an error. -/
theorem claim_C7 (render : PdfPage → ℚ → Nat → Img) (pages : List PdfPage) :
    pdf_to_images render pages 300 =
      pages.map (fun p => render p ((300 : ℚ) / 72) 0) ∧
    (pdf_to_images render pages 300).length = pages.length ∧
    (∀ (cfgp : Params) (respF : Nat → VLLMResponse) (st st' : ModelService)
       (b64s texts : List String) (i : Nat),
       run_pages cfgp respF st b64s i = (.ok texts, st') →
       texts.length = b64s.length) ∧
    (∀ (st : ModelService) (mc : CurrentModel) (filename : String)
       (texts : List String), get_current_model st = .ok mc →
       mkResult st filename texts =
         (.ok ⟨true, join_pages texts, filename, texts.length,
            mc.cfg.display_name⟩, st)) ∧
    (∀ texts : List String,
       (join_pages texts).data.length =
         (texts.map (fun t => t.data.length)).sum +
           (texts.length - 1) * sep.data.length) ∧
    (∀ texts : List String,
       texts.length - 1 ≤ occurrences sep.data (join_pages texts).data) ∧
    (∀ texts : List String, texts ≠ [] →
       (∀ t ∈ texts, t.data ≠ [] ∧ ∀ c ∈ t.data, c ∉ sep.data) →
       occurrences sep.data (join_pages texts).data = texts.length - 1) ∧
    (∀ (enc : Img → String) (jp : JsonParse) (respF : Nat → VLLMResponse)
       (st : ModelService) (mc : CurrentModel) (filename : String)
       (cfgStr : Option String), get_current_model st = .ok mc →
       (process_document render enc jp respF st filename cfgStr
          (.pdfFile [])).1 =
         .ok ⟨true, "", filename, 0, mc.cfg.display_name⟩) := by
  refine ⟨rfl, by rw [pdf_to_images, List.length_map],
    fun cfgp respF st st' b64s texts i h =>
      run_pages_length cfgp respF b64s st i texts st' h,
    fun st mc filename texts h => by simp only [mkResult, h],
    fun texts => ?_, fun texts => ?_,
    fun texts hne ht => ?_, fun enc jp respF st mc filename cfgStr h => ?_⟩
  · rw [join_pages_data, joinl_length]
    congr 1
    · rw [List.map_map]
      rfl
    · rw [List.length_map]
  · have h := occurrences_joinl_ge (texts.map String.data)
    rw [List.length_map] at h
    rw [join_pages_data]
    exact h
  · rw [join_pages_data, occurrences_joinl (texts.map String.data)
      (by simpa using hne)
      (fun td htd => by
        obtain ⟨t, htmem, rfl⟩ := List.mem_map.mp htd
        exact ht t htmem),
      List.length_map]
  · simp only [process_document, pdf_to_images, List.map_nil, run_pages,
      mkResult, h]
    rfl

/-- Witness for the amended C7: two pages render to two images in order;
two 2-character page texts join into a 26-character transcript
(2 + 2 + 1·22) with exactly one separator occurrence; a zero-page PDF run
succeeds with an empty transcript. -/
theorem claim_C7_witness :
    pdf_to_images (fun p _ _ => ⟨p.idx + 1, 1⟩) [⟨0⟩, ⟨1⟩] 300 =
      [⟨1, 1⟩, ⟨2, 1⟩] ∧
    (join_pages ["xx", "yy"]).data.length = 26 ∧
    occurrences sep.data (join_pages ["xx", "yy"]).data = 1 ∧
    (process_document (fun p _ _ => ⟨p.idx + 1, 1⟩) (fun _ => "B")
       (fun _ => none) (fun _ => respOk) st0 "doc.pdf" none (.pdfFile [])).1 =
      .ok ⟨true, "", "doc.pdf", 0, "Model A"⟩ := by
  obtain ⟨h1, _, _, _, h5, _, h7, h8⟩ :=
    claim_C7 (fun p _ _ => ⟨p.idx + 1, 1⟩) [⟨0⟩, ⟨1⟩]
  refine ⟨by rw [h1]; rfl, ?_, ?_, ?_⟩
  · rw [h5 ["xx", "yy"]]
    rfl
  · exact h7 ["xx", "yy"] (by simp) (by decide)
  · exact h8 (fun _ => "B") (fun _ => none) (fun _ => respOk) st0
      ⟨"model-a", cfgA⟩ "doc.pdf" none rfl

end OCR
